import Mathlib

/-!
Shallow embedding of the aggregation and scoring pipeline of the
"Raport Czasu Pracy" repository (src/helpers.py, src/app.py,
src/test_aggregation.py).

Modelling conventions:
* machine floats are modelled by `ℚ` (all arithmetic in the claims is exact
  decimal arithmetic on small values);
* a pandas "possibly NaN" cell is an `Option` value (`none` = NaN/None);
* Python strings are Lean `String`s, processed through their character lists;
* `float(...)` / `int(...)` parse failures (Python exceptions caught by the
  source) are `Option.none` results of the explicitly modelled readers.
  The readers cover sign + decimal digits + optional fractional part, the
  grammar fragment exercised by this repository's data; exotic Python float
  literals (exponents, `inf`, underscores) are outside the model.
-/

namespace WorkReport

/-! ### Characters and digit strings -/

/-- ASCII decimal digit test (`\d` of the source's regex, and the digits
accepted by Python `int`/`float`). -/
def isDigitCh (c : Char) : Bool := 48 ≤ c.toNat && c.toNat ≤ 57

/-- Whitespace stripped by Python `str.strip`. -/
def isSpaceCh (c : Char) : Bool :=
  c.toNat = 32 || c.toNat = 9 || c.toNat = 10 || c.toNat = 13

/-- Numeric value of a digit character. -/
def digitVal (c : Char) : Nat := c.toNat - 48

/-- The digit character for `n < 10` (Python decimal formatting). -/
def digitCh (n : Nat) : Char :=
  match n with
  | 0 => '0' | 1 => '1' | 2 => '2' | 3 => '3' | 4 => '4'
  | 5 => '5' | 6 => '6' | 7 => '7' | 8 => '8' | _ => '9'

/-- Decimal digits of a natural number, most significant first
(Python `str(n)` for `n ≥ 0`). -/
def natToChars (n : Nat) : List Char :=
  if _h : n < 10 then [digitCh n]
  else natToChars (n / 10) ++ [digitCh (n % 10)]
  decreasing_by exact Nat.div_lt_self (by omega) (by omega)

/-- Value of a digit string (fold used by the embedded `int` reader). -/
def digitsVal (cs : List Char) : Nat :=
  cs.foldl (fun a c => 10 * a + digitVal c) 0

/-- Python `int(s)` on an unsigned string: all characters must be digits. -/
def readNat (cs : List Char) : Option Nat :=
  if cs.isEmpty then none
  else if cs.all isDigitCh then some (digitsVal cs) else none

/-- Python `int(s)`: optional sign followed by digits. -/
def readInt (cs : List Char) : Option Int :=
  match cs with
  | [] => none
  | c :: rest =>
      if c = '-' then (readNat rest).map (fun n => -(n : Int))
      else if c = '+' then (readNat rest).map (fun n => (n : Int))
      else (readNat (c :: rest)).map (fun n => (n : Int))

/-- Unsigned decimal literal accepted by Python `float`:
`digits`, `digits.`, `digits.digits` or `.digits`. -/
def readDecFrac (cs : List Char) : Option ℚ :=
  let ds := cs.takeWhile isDigitCh
  let rest := cs.dropWhile isDigitCh
  match rest with
  | [] => if ds.isEmpty then none else some (digitsVal ds : ℚ)
  | '.' :: fs =>
      if fs.all isDigitCh && !(ds.isEmpty && fs.isEmpty) then
        some ((digitsVal ds : ℚ) + (digitsVal fs : ℚ) / 10 ^ fs.length)
      else none
  | _ => none

/-- Python `float(s)`: optional sign then a decimal literal. -/
def readFloat (cs : List Char) : Option ℚ :=
  match cs with
  | '-' :: rest => (readDecFrac rest).map (fun q => -q)
  | '+' :: rest => readDecFrac rest
  | _ => readDecFrac cs

/-- Python `str.strip`. -/
def stripChars (cs : List Char) : List Char :=
  ((cs.dropWhile isSpaceCh).reverse.dropWhile isSpaceCh).reverse

/-- `splitOnAux sep cs acc`: worker for Python `str.split(sep)`. -/
def splitOnAux (sep : Char) : List Char → List Char → List (List Char)
  | [], acc => [acc.reverse]
  | c :: cs, acc =>
      if c = sep then acc.reverse :: splitOnAux sep cs []
      else splitOnAux sep cs (c :: acc)

/-- Python `str.split(sep)` for a single-character separator. -/
def splitOnChar (sep : Char) (cs : List Char) : List (List Char) :=
  splitOnAux sep cs []

/-- Does `cs` start with `pat`? -/
def leadsWith : List Char → List Char → Bool
  | [], _ => true
  | _ :: _, [] => false
  | a :: as, b :: bs => a == b && leadsWith as bs

/-- Python `pat in s` substring containment. -/
def containsSub (pat : List Char) : List Char → Bool
  | [] => leadsWith pat []
  | c :: cs => leadsWith pat (c :: cs) || containsSub pat cs

/-- Python `str.lower` (ASCII fragment, all the source compares against). -/
def lowerChars (cs : List Char) : List Char := cs.map Char.toLower

/-- Python `int(x)` on a float: truncation toward zero. -/
def pyTrunc (q : ℚ) : ℤ := if 0 ≤ q then ⌊q⌋ else -⌊-q⌋

/-- Python `//` on ints (floor division). -/
def pyFloorDiv (a b : ℤ) : ℤ := Int.fdiv a b

/-- Python `%` on ints (floor modulus). -/
def pyFloorMod (a b : ℤ) : ℤ := Int.fmod a b

/-- Two-digit zero-padded rendering, Python `f"..0nd.."` for `0 ≤ n < 100`. -/
def pad2 (n : Nat) : List Char :=
  if n < 10 then '0' :: natToChars n else natToChars n

/-- Python `str(i)` for an int. -/
def intToChars (i : ℤ) : List Char :=
  if i < 0 then '-' :: natToChars i.natAbs else natToChars i.toNat

/-! ### helpers.parse_time_to_hours (src/helpers.py lines 20-49)

The argument is `Option String`: `none` models a NaN cell
(`pd.isna(time_str)`).  Any exception inside the `try` block yields `0.0`,
modelled by the `none` branches of the readers. -/

def parse_time_to_hours (v : Option String) : ℚ :=
  match v with
  | none => 0
  | some s =>
      if s = "" then 0
      else
        let cs := stripChars s.data
        if cs.contains ':' then
          let parts := splitOnChar ':' cs
          match readInt (parts.headD []) with
          | none => 0
          | some h =>
              match (parts.drop 1).head? with
              | none => (h : ℚ)
              | some p1 =>
                  match readInt p1 with
                  | some m => (h : ℚ) + (m : ℚ) / 60
                  | none => 0
        else
          match readFloat cs with
          | some q => q
          | none => 0

/-! ### helpers.hours_to_hm_format (src/helpers.py lines 52-68)

`none` models `pd.isna(hours)`. -/

def hours_to_hm_format (v : Option ℚ) : String :=
  match v with
  | none => "0:00"
  | some h =>
      if h = 0 then "0:00"
      else
        let total_minutes : ℤ := pyTrunc (h * 60)
        let hh : ℤ := pyFloorDiv total_minutes 60
        let mm : ℤ := pyFloorMod total_minutes 60
        String.mk (intToChars hh ++ ':' :: pad2 mm.toNat)

/-! ### helpers.extract_creative_percentage (src/helpers.py lines 76-126) -/

/-- Leftmost regex match `\d+(\.\d+)?` starting at the head of `cs`
(the head is known to be a digit). -/
def readMatch (cs : List Char) : ℚ :=
  let ds := cs.takeWhile isDigitCh
  let rest := cs.dropWhile isDigitCh
  match rest with
  | '.' :: r2 =>
      let fs := r2.takeWhile isDigitCh
      if fs.isEmpty then (digitsVal ds : ℚ)
      else (digitsVal ds : ℚ) + (digitsVal fs : ℚ) / 10 ^ fs.length
  | _ => (digitsVal ds : ℚ)

/-- `re.search` of `\d+(\.\d+)?`: value of the leftmost number in the text,
if any. -/
def firstNumber : List Char → Option ℚ
  | [] => none
  | c :: cs => if isDigitCh c then some (readMatch (c :: cs)) else firstNumber cs

/-- The regex fallback branch of `extract_creative_percentage`. -/
def regexBranch (cs : List Char) : Option ℤ :=
  match firstNumber cs with
  | some q => if 0 ≤ q ∧ q ≤ 100 then some (pyTrunc q) else none
  | none => none

def extract_creative_percentage (v : Option String) : Option ℤ :=
  match v with
  | none => none
  | some s =>
      let cs := stripChars s.data
      if cs.isEmpty then none
      else if containsSub "No Procent".data cs then none
      else if containsSub "Brak danych".data cs then none
      else if lowerChars cs = "none".data then none
      else if lowerChars cs = "nan".data then none
      else
        match readFloat cs with
        | some q => if 0 ≤ q ∧ q ≤ 100 then some (pyTrunc q) else regexBranch cs
        | none => regexBranch cs

/-! ### Task records (the row schema shared by both pipelines) -/

/-- One processed task row (`person`, `task`, `key`, `time_hours`,
`creative_percent`, `creative_hours` columns of the source's data frames).
`Option` fields model possibly-NaN cells.  The `time_spent` text column and
the worklog date columns are not carried: no claim mentions them. -/
structure TaskRec where
  person : Option String
  task : Option String
  key : Option String
  time_hours : ℚ
  creative_percent : Option ℤ
  creative_hours : ℚ
deriving DecidableEq, Repr

/-! ### app.process_excel_data (src/app.py lines 61-103)

The scan state is the pair (`current_user`, accumulated records, most recent
first).  `current_user : Option (Option String)`: outer `none` = no level-0
row seen yet (`current_user is None`), inner `Option String` is that row's
description cell (`none` = NaN).  `current_task` is always the most recently
appended record, so the level-2 branch updates the head of the accumulator.
The trailing dtype conversions of the source (`astype(float)`,
`to_numeric`) are identities in this model and are not repeated. -/

structure ExcelRow where
  level : ℤ
  description : Option String
  key : Option String
  timeSpent : Option String
deriving DecidableEq, Repr

/-- Python truthiness of `current_user` in `level == 1 and current_user`:
`None` and the empty string are falsy, NaN and non-empty strings truthy. -/
def truthyUser : Option (Option String) → Bool
  | none => false
  | some none => true
  | some (some s) => !(s == "")

/-- The record built by the level-1 branch. -/
def mkExcelTask (cu : Option (Option String)) (r : ExcelRow) : TaskRec :=
  { person := cu.getD none
  , task := r.description
  , key := some (r.key.getD "")
  , time_hours := parse_time_to_hours r.timeSpent
  , creative_percent := none
  , creative_hours := 0 }

def excelStep (st : Option (Option String) × List TaskRec) (r : ExcelRow) :
    Option (Option String) × List TaskRec :=
  if r.level = 0 then (some r.description, st.2)
  else if r.level = 1 ∧ truthyUser st.1 then
    (st.1, mkExcelTask st.1 r :: st.2)
  else if r.level = 2 ∧ r.description ≠ none then
    match st.2 with
    | [] => st
    | t :: ts =>
        match extract_creative_percentage r.description with
        | some p =>
            (st.1, { t with creative_percent := some p
                          , creative_hours := ((p : ℚ) / 100) * t.time_hours } :: ts)
        | none => st
  else st

def process_excel_data (rows : List ExcelRow) : List TaskRec :=
  (rows.foldl excelStep (none, [])).2.reverse

/-! ### app.process_worklogs_data (src/app.py lines 107-136)

Date columns (`Start Date`, `month_str`) are outside every claim and are
not modelled. -/

structure WorklogRow where
  author : Option String
  issueSummary : Option String
  issueKey : Option String
  timeSpent : Option String
  percentText : Option String
deriving DecidableEq, Repr

def processWorklogRow (w : WorklogRow) : TaskRec :=
  let th := parse_time_to_hours w.timeSpent
  let cp := extract_creative_percentage w.percentText
  { person := w.author
  , task := w.issueSummary
  , key := w.issueKey
  , time_hours := th
  , creative_percent := cp
  , creative_hours := ((cp.getD 0 : ℤ) : ℚ) / 100 * th }

def process_worklogs_data (ws : List WorklogRow) : List TaskRec :=
  ws.map processWorklogRow

/-! ### The aggregation of src/test_aggregation.py lines 44-55

`df_processed.groupby(["key"], as_index=False).agg(...)` — grouping is by
the `key` column alone.  pandas emits the groups sorted by key and drops
rows whose key is NaN; the claims under verification do not depend on group
order, so groups are listed in order of first appearance here.  The named
aggregation `"first"` is pandas' first NON-NULL value; the `person` column
uses `lambda x: x.iloc[0]`, the literal first row. -/

/-- First-appearance-order deduplication (worker). -/
def uniqAux {α : Type} [DecidableEq α] : List α → List α → List α
  | [], _ => []
  | x :: xs, seen => if x ∈ seen then uniqAux xs seen else x :: uniqAux xs (x :: seen)

/-- First-appearance-order deduplication (pandas `unique`). -/
def uniqFirst {α : Type} [DecidableEq α] (l : List α) : List α := uniqAux l []

/-- pandas aggregation `"first"`: first non-null value. -/
def firstSome {α : Type} : List (Option α) → Option α
  | [] => none
  | some a :: _ => some a
  | none :: rest => firstSome rest

structure AggRec where
  person : Option String
  task : Option String
  key : String
  time_hours : ℚ
  creative_percent : Option ℤ
  creative_hours : ℚ
deriving DecidableEq, Repr

def aggregate_worklogs (rs : List TaskRec) : List AggRec :=
  (uniqFirst (rs.filterMap (·.key))).map (fun k =>
    let g := rs.filter (fun r => decide (r.key = some k))
    { person := match g.head? with | some r => r.person | none => some ""
    , task := firstSome (g.map (·.task))
    , key := k
    , time_hours := (g.map (·.time_hours)).sum
    , creative_percent := firstSome (g.map (·.creative_percent))
    , creative_hours := (g.map (·.creative_hours)).sum })

/-! ### helpers.get_top_task_per_person (src/helpers.py lines 175-259) -/

/-- The source's per-task score `creative_hours * creative_percent / 100`.
On the rows where the source evaluates it with a null percent the Python
value would be NaN; those rows never reach a claim, and `getD 0` stands in. -/
def rowScore (r : TaskRec) : ℚ :=
  r.creative_hours * ((r.creative_percent.getD 0 : ℤ) : ℚ) / 100

/-- `person_total_scores[person]`: the sum of `task_score` over that
person's rows with a non-null `creative_percent` (0.0 when there are none,
which coincides with the empty sum). -/
def person_total_score (rs : List TaskRec) (p : Option String) : ℚ :=
  ((rs.filter (fun r => decide (r.person = p) && r.creative_percent.isSome)).map
    rowScore).sum

/-- `nlargest(1, col).iloc[0]`: the first row attaining the maximum of `f`
(pandas keeps the first of tied rows). -/
def argmaxFirst {α : Type} (f : α → ℚ) : List α → Option α
  | [] => none
  | x :: xs =>
      match argmaxFirst f xs with
      | none => some x
      | some y => if f y > f x then some y else some x

structure TopRec where
  person : Option String
  task : Option String
  key : Option String
  time_hours : ℚ
  creative_percent : Option ℤ
  creative_hours : ℚ
  score : ℚ
  total_score : ℚ
  has_creative_data : Bool
deriving DecidableEq, Repr

/-- The body of the `for person in sorted(df["person"].unique())` loop.
The final unreachable branch models the `IndexError` Python would raise on
a person with no rows; it never fires for persons drawn from the table. -/
def topTaskFor (rs : List TaskRec) (p : Option String) : TopRec :=
  let person_data := rs.filter (fun r => decide (r.person = p))
  let creative_data := person_data.filter (fun r => decide (0 < r.creative_hours))
  match argmaxFirst rowScore creative_data with
  | some best =>
      { person := best.person, task := best.task, key := best.key
      , time_hours := best.time_hours, creative_percent := best.creative_percent
      , creative_hours := best.creative_hours, score := rowScore best
      , total_score := person_total_score rs p, has_creative_data := true }
  | none =>
      match argmaxFirst (·.time_hours) person_data with
      | some best =>
          { person := best.person, task := best.task, key := best.key
          , time_hours := best.time_hours, creative_percent := best.creative_percent
          , creative_hours := best.creative_hours, score := 0
          , total_score := person_total_score rs p, has_creative_data := false }
      | none =>
          { person := p, task := none, key := none, time_hours := 0
          , creative_percent := none, creative_hours := 0, score := 0
          , total_score := person_total_score rs p, has_creative_data := false }

/-- Lexicographic code-point comparison of strings (Python `str` order). -/
def charListLE : List Char → List Char → Bool
  | [], _ => true
  | _ :: _, [] => false
  | a :: as, b :: bs =>
      if a.toNat < b.toNat then true
      else if b.toNat < a.toNat then false
      else charListLE as bs

/-- Python `sorted` order on the person column (lexicographic on strings;
the source would raise on NaN persons, ordered first here). -/
def persLEb : Option String → Option String → Bool
  | none, _ => true
  | some _, none => false
  | some x, some y => charListLE x.data y.data

def persLE (a b : Option String) : Prop := persLEb a b = true

instance : DecidableRel persLE := fun a b =>
  inferInstanceAs (Decidable (persLEb a b = true))

/-- Descending order on `total_score`, the key of the final
`sort_values(by="total_score", ascending=False)`.  pandas' default
`kind="quicksort"` guarantees only a permutation of the rows that is
sorted by the key — it gives no tie-order guarantee.  The model sorts with
`List.insertionSort`, ONE admissible such permutation; no theorem below
asserts anything about the order of rows with equal `total_score`. -/
def scoreGE (a b : TopRec) : Prop := b.total_score ≤ a.total_score

instance : DecidableRel scoreGE := fun a b =>
  inferInstanceAs (Decidable (b.total_score ≤ a.total_score))

instance : IsTotal TopRec scoreGE := ⟨fun a b => le_total b.total_score a.total_score⟩

instance : IsTrans TopRec scoreGE :=
  ⟨fun _ _ _ h₁ h₂ => le_trans h₂ h₁⟩

/-- The rows of `most_creative_tasks` in their insertion order (one per
person, persons in Python `sorted` order). -/
def topTableUnsorted (rs : List TaskRec) : List TopRec :=
  (List.insertionSort persLE (uniqFirst (rs.map (·.person)))).map (topTaskFor rs)

def get_top_task_per_person (rs : List TaskRec) : List TopRec :=
  List.insertionSort scoreGE (topTableUnsorted rs)

/-! ### The main-tab leaderboard of app.main (src/app.py lines 422-469)

The same per-person loop as `get_top_task_per_person`, but the rows carry
no `total_score` column and the displayed table is sorted by
`sort_values(by="score", ascending=False)` — the SINGLE top-task score
(app.py lines 467-469). -/

structure AppTopRec where
  person : Option String
  task : Option String
  key : Option String
  time_hours : ℚ
  creative_percent : Option ℤ
  creative_hours : ℚ
  score : ℚ
  has_creative_data : Bool
deriving DecidableEq, Repr

/-- The body of the `for person in sorted(df_processed["person"].unique())`
loop of app.py lines 423-461.  As in `topTaskFor`, the last branch models
the `IndexError` raised on a person with no rows and never fires for
persons drawn from the table. -/
def appTopTaskFor (rs : List TaskRec) (p : Option String) : AppTopRec :=
  let person_data := rs.filter (fun r => decide (r.person = p))
  let creative_data := person_data.filter (fun r => decide (0 < r.creative_hours))
  match argmaxFirst rowScore creative_data with
  | some best =>
      { person := best.person, task := best.task, key := best.key
      , time_hours := best.time_hours, creative_percent := best.creative_percent
      , creative_hours := best.creative_hours, score := rowScore best
      , has_creative_data := true }
  | none =>
      match argmaxFirst (·.time_hours) person_data with
      | some best =>
          { person := best.person, task := best.task, key := best.key
          , time_hours := best.time_hours, creative_percent := best.creative_percent
          , creative_hours := best.creative_hours, score := 0
          , has_creative_data := false }
      | none =>
          { person := p, task := none, key := none, time_hours := 0
          , creative_percent := none, creative_hours := 0, score := 0
          , has_creative_data := false }

/-- Descending order on the single top-task `score`, the key of
`most_creative_df.sort_values(by="score", ascending=False)` at app.py
lines 467-469 (again: any sorted permutation; tie order unasserted). -/
def appScoreGE (a b : AppTopRec) : Prop := b.score ≤ a.score

instance : DecidableRel appScoreGE := fun a b =>
  inferInstanceAs (Decidable (b.score ≤ a.score))

instance : IsTotal AppTopRec appScoreGE := ⟨fun a b => le_total b.score a.score⟩

instance : IsTrans AppTopRec appScoreGE :=
  ⟨fun _ _ _ h₁ h₂ => le_trans h₂ h₁⟩

/-- `most_creative_df_sorted` of app.py lines 422-469: one row per person,
sorted descending by the top-task `score` column. -/
def app_top_tasks (rs : List TaskRec) : List AppTopRec :=
  List.insertionSort appScoreGE
    ((List.insertionSort persLE (uniqFirst (rs.map (·.person)))).map (appTopTaskFor rs))

/-! ### helpers.validate_data_structure (src/helpers.py lines 411-469) -/

/-- The raw uploaded sheet: which of the three referenced columns exist,
and the cells of each row (all `Option`: `none` = NaN). -/
structure RawRow where
  level : Option ℤ
  desc : Option String
  totalTime : Option String
deriving DecidableEq, Repr

structure RawSheet where
  hasLevel : Bool
  hasDesc : Bool
  hasTotalTime : Bool
  rows : List RawRow
deriving DecidableEq, Repr

/-- Python `", ".join`. -/
def joinComma : List String → String
  | [] => ""
  | [s] => s
  | s :: rest => s ++ ", " ++ joinComma rest

/-- The non-first occurrences of the user column, deduplicated in order
(`users[users.duplicated()].unique()`). -/
def dupAux : List String → List String → List String
  | [], _ => []
  | x :: xs, seen => if x ∈ seen then x :: dupAux xs seen else dupAux xs (x :: seen)

def dupValues (users : List String) : List String := uniqFirst (dupAux users [])

def descColumn : String := "Users / Issues / Procent pracy twórczej"

def levelRows (df : RawSheet) (n : ℤ) : List RawRow :=
  df.rows.filter (fun r => decide (r.level = some n))

def validate_data_structure (df : RawSheet) : List String × List String :=
  if !df.hasLevel || !df.hasDesc then
    let missing := (if df.hasLevel then [] else ["Level"]) ++
      (if df.hasDesc then [] else [descColumn])
    (["Brakujące kolumny: " ++ joinComma missing], [])
  else if df.rows.isEmpty then
    (["Plik jest pusty"], [])
  else
    let presentLevels := df.rows.filterMap (·.level)
    let w1 := if presentLevels.contains 0 then []
      else ["Brak poziomu 0 (użytkownicy) - może być problem ze strukturą"]
    let w2 := if presentLevels.contains 1 then []
      else ["Brak poziomu 1 (zadania) - brak danych do analizy"]
    let users := (levelRows df 0).filterMap (·.desc)
    let dups := dupValues users
    let w3 := if dups.isEmpty then []
      else ["Wykryto duplikaty użytkowników: " ++ joinComma (dups.take 3) ++
        (if dups.length > 3 then
          " i " ++ String.mk (natToChars (dups.length - 3)) ++ " więcej"
        else "")]
    let w4 := if df.hasTotalTime then
        if ((levelRows df 1).filterMap (·.totalTime)).isEmpty then
          ["Brak danych czasu pracy (Total Time Spent)"]
        else []
      else ["Brak kolumny \x27Total Time Spent\x27 - nie będzie można obliczyć czasu pracy"]
    let creative := (levelRows df 2).filterMap (·.desc)
    let w5 := if creative.isEmpty then
      ["Brak danych o procentach pracy twórczej (Level 2)"]
    else []
    ([], w1 ++ w2 ++ w3 ++ w4 ++ w5)

/-! ## Helper lemmas -/

/-- Truncation of a rational in `[0, 100]` is an integer in `[0, 100]`. -/
theorem pyTrunc_range {q : ℚ} (h0 : 0 ≤ q) (h100 : q ≤ 100) :
    0 ≤ pyTrunc q ∧ pyTrunc q ≤ 100 := by
  unfold pyTrunc
  rw [if_pos h0]
  constructor
  · exact Int.le_floor.mpr (by exact_mod_cast h0)
  · have h : ((⌊q⌋ : ℚ)) ≤ (100 : ℚ) := le_trans (Int.floor_le q) h100
    exact_mod_cast h

/-- The regex fallback only produces integers in `[0, 100]`. -/
theorem regexBranch_range {cs : List Char} {n : ℤ} (h : regexBranch cs = some n) :
    0 ≤ n ∧ n ≤ 100 := by
  unfold regexBranch at h
  split at h
  · split at h
    · obtain rfl : _ = n := Option.some.injEq _ _ ▸ h
      rename_i hq
      exact ⟨(pyTrunc_range hq.1 hq.2).1, (pyTrunc_range hq.1 hq.2).2⟩
    · exact absurd h (by simp)
  · exact absurd h (by simp)

/-- Range of the creative-percentage extractor (shared by C6 and C8). -/
theorem extract_range {v : Option String} {n : ℤ}
    (h : extract_creative_percentage v = some n) : 0 ≤ n ∧ n ≤ 100 := by
  unfold extract_creative_percentage at h
  split at h
  · exact absurd h (by simp)
  · dsimp only at h
    split at h
    · exact absurd h (by simp)
    · split at h
      · exact absurd h (by simp)
      · split at h
        · exact absurd h (by simp)
        · split at h
          · exact absurd h (by simp)
          · split at h
            · exact absurd h (by simp)
            · split at h
              · split at h
                · obtain rfl : _ = n := Option.some.injEq _ _ ▸ h
                  rename_i hq
                  exact pyTrunc_range hq.1 hq.2
                · exact regexBranch_range h
              · exact regexBranch_range h

/-- Range of the `creative_percent` stored by the pipelines, with the null
entry defaulted to 0 (`fillna(0)`). -/
theorem getD_extract_range (v : Option String) :
    0 ≤ ((extract_creative_percentage v).getD 0) ∧
      ((extract_creative_percentage v).getD 0) ≤ 100 := by
  cases h : extract_creative_percentage v with
  | none => simp
  | some n => simpa using extract_range h

/-! ## Concrete tables used by the claim theorems -/

/-- The two worklog rows of the spec's aggregation scenario
(`(Alice, KEY-1, "10:00", "90")` and `(Alice, KEY-1, "5:00", "50")`). -/
def aliceRows : List WorklogRow :=
  [⟨some "Alice", some "Task A", some "KEY-1", some "10:00", some "90"⟩,
   ⟨some "Alice", some "Task A", some "KEY-1", some "5:00", some "50"⟩]

/-- Two worklog rows sharing one issue key across two people. -/
def sharedKeyRows : List WorklogRow :=
  [⟨some "Alice", some "Task A", some "KEY-1", some "2:00", some "90"⟩,
   ⟨some "Bob", some "Task A", some "KEY-1", some "3:00", some "50"⟩]

/-- A hierarchical report whose level-1 time cell is negative text. -/
def negativeTimeRows : List ExcelRow :=
  [⟨0, some "Jan", none, none⟩,
   ⟨1, some "T", some "K", some "-2:00"⟩,
   ⟨2, some "50", none, none⟩]

/-- A one-row table whose only task has a recorded creative percent of 0
(creative data present, `creative_hours = 0`). -/
def zeroPercentTable : List TaskRec :=
  [⟨some "Bob", some "T", some "K", 5, some 0, 0⟩]

/-! ## Claim theorems -/

/-- C10: `parse_time_to_hours` can return a negative value: the numeric
text `"-2.5"` parses to `-2.5` and the clock text `"-3:30"` to
`-3 + 30/60 = -2.5`; negative input is passed through without clamping. -/
theorem c10_parse_time_negative :
    parse_time_to_hours (some "-2.5") = -5/2 ∧
    parse_time_to_hours (some "-3:30") = -5/2 ∧
    parse_time_to_hours (some "-2.5") < 0 := by
  have h1 : parse_time_to_hours (some "-2.5") = -(((2:ℕ):ℚ) + ((5:ℕ):ℚ)/10^(1:ℕ)) := rfl
  have h2 : parse_time_to_hours (some "-3:30") = ((-((3:ℕ):ℤ)):ℚ) + (((30:ℕ):ℤ):ℚ)/60 := rfl
  refine ⟨by rw [h1]; norm_num, by rw [h2]; norm_num, by rw [h1]; norm_num⟩

/-- C1 (failing input): the source's aggregation
(`groupby(["key"])`, src/test_aggregation.py lines 44-55) groups by the
`key` column alone.  On two rows sharing `KEY-1` — Alice 2:00 and Bob 3:00 —
it emits a single aggregated row, attributed wholly to the first author
Alice with all 5 hours, and Bob retains no aggregated row, although the
claim (and §4.5 / §9 of the spec, and the repository's own
`debug_aggregation.py`) require grouping by `(person, task_key)` with a
separate group per person. -/
theorem c1_key_only_grouping_eval :
    (aggregate_worklogs (process_worklogs_data sharedKeyRows)).length = 1 ∧
    (aggregate_worklogs (process_worklogs_data sharedKeyRows)).map (·.person) =
      [some "Alice"] ∧
    (aggregate_worklogs (process_worklogs_data sharedKeyRows)).map (·.time_hours) =
      [5] ∧
    (process_worklogs_data sharedKeyRows).countP
      (fun r => decide (r.person = some "Bob")) = 1 ∧
    (aggregate_worklogs (process_worklogs_data sharedKeyRows)).countP
      (fun r => decide (r.person = some "Bob")) = 0 := by
  have ht : (aggregate_worklogs (process_worklogs_data sharedKeyRows)).map (·.time_hours) =
      [(((2:ℕ):ℤ):ℚ) + (((0:ℕ):ℤ):ℚ)/60 + ((((3:ℕ):ℤ):ℚ) + (((0:ℕ):ℤ):ℚ)/60 + 0)] := rfl
  refine ⟨by decide, by decide, ?_, by decide, by decide⟩
  rw [ht]
  norm_num

/-- C2 (counterexample): on the spec's scenario rows
`[(Alice, KEY-1, "10:00", "90"), (Alice, KEY-1, "5:00", "50")]` the source
aggregation returns `creative_percent = 90` (pandas `"first"`), not the
hour-weighted mean `76.7` the claim states. -/
theorem c2_first_percent_counterexample :
    (aggregate_worklogs (process_worklogs_data aliceRows)).map (·.creative_percent) =
      [some 90] ∧
    ¬ ((90 : ℚ) = 767/10) := by
  refine ⟨by decide, by norm_num⟩

/-- C2 (amended): the aggregate `creative_percent` is the first
constituent's non-null percent, while `time_hours` and `creative_hours` are
sums: the scenario aggregates to one row with `time_hours = 15.0`,
`creative_hours = 11.5` and `creative_percent = 90`. -/
theorem c2_aggregate_scenario :
    (aggregate_worklogs (process_worklogs_data aliceRows)).map (·.person) =
      [some "Alice"] ∧
    (aggregate_worklogs (process_worklogs_data aliceRows)).map (·.task) =
      [some "Task A"] ∧
    (aggregate_worklogs (process_worklogs_data aliceRows)).map (·.key) =
      ["KEY-1"] ∧
    (aggregate_worklogs (process_worklogs_data aliceRows)).map (·.time_hours) =
      [15] ∧
    (aggregate_worklogs (process_worklogs_data aliceRows)).map (·.creative_percent) =
      [some 90] ∧
    (aggregate_worklogs (process_worklogs_data aliceRows)).map (·.creative_hours) =
      [23/2] := by
  have ht : (aggregate_worklogs (process_worklogs_data aliceRows)).map (·.time_hours) =
      [(((10:ℕ):ℤ):ℚ) + (((0:ℕ):ℤ):ℚ)/60 + ((((5:ℕ):ℤ):ℚ) + (((0:ℕ):ℤ):ℚ)/60 + 0)] := rfl
  have hc : (aggregate_worklogs (process_worklogs_data aliceRows)).map (·.creative_hours) =
      [((90:ℤ):ℚ)/100 * ((((10:ℕ):ℤ):ℚ) + (((0:ℕ):ℤ):ℚ)/60) +
        (((50:ℤ):ℚ)/100 * ((((5:ℕ):ℤ):ℚ) + (((0:ℕ):ℤ):ℚ)/60) + 0)] := rfl
  refine ⟨by decide, by decide, by decide, ?_, by decide, ?_⟩
  · rw [ht]; norm_num
  · rw [hc]; norm_num

/-- C8 (counterexample): the hierarchical reshaper applied to a report whose
level-1 time cell reads `"-2:00"` produces a record with
`time_hours = -2` and, after the level-2 row `"50"`, `creative_hours = -1`,
so `creative_hours ≤ time_hours` fails even though the recorded
`creative_percent` is `50 ≤ 100`. -/
theorem c8_negative_time_counterexample :
    (process_excel_data negativeTimeRows).map (·.creative_percent) = [some 50] ∧
    (process_excel_data negativeTimeRows).map (·.time_hours) = [-2] ∧
    (process_excel_data negativeTimeRows).map (·.creative_hours) = [-1] ∧
    ¬ ((-1 : ℚ) ≤ -2) := by
  have ht : (process_excel_data negativeTimeRows).map (·.time_hours) =
      [((-((2:ℕ):ℤ)):ℚ) + (((0:ℕ):ℤ):ℚ)/60] := rfl
  have hc : (process_excel_data negativeTimeRows).map (·.creative_hours) =
      [((50:ℤ):ℚ)/100 * (((-((2:ℕ):ℤ)):ℚ) + (((0:ℕ):ℤ):ℚ)/60)] := rfl
  refine ⟨by decide, ?_, ?_, by norm_num⟩
  · rw [ht]; norm_num
  · rw [hc]; norm_num

/-- C6: for every input, `extract_creative_percentage` returns `none` or an
integer in `[0, 100]`; out-of-range and non-numeric text fall through the
guarded branches to `none`.  The function is total (the source's
`try`/`except` absorption of parse errors is the `none` result of the
embedded readers), so it never raises. -/
theorem c6_extract_creative_percentage_range (s : Option String) (n : ℤ)
    (h : extract_creative_percentage s = some n) : 0 ≤ n ∧ n ≤ 100 :=
  extract_range h

/-- C6 witness: the extractor succeeds on `"90%"` with value 90, which the
theorem places in `[0, 100]`. -/
theorem c6_extract_creative_percentage_range_witness :
    extract_creative_percentage (some "90%") = some 90 ∧
      0 ≤ (90 : ℤ) ∧ (90 : ℤ) ≤ 100 :=
  ⟨by decide, c6_extract_creative_percentage_range (some "90%") 90 (by decide)⟩

/-- `(c/100) * t ≤ t` for a percent `c ∈ [0, 100]` and `t ≥ 0`. -/
theorem ratio_bound {c : ℤ} {th : ℚ} (h100 : c ≤ 100) (hth : 0 ≤ th) :
    ((c : ℚ) / 100) * th ≤ th := by
  have h1 : ((c : ℚ)) / 100 ≤ 1 := by
    rw [div_le_one (by norm_num)]
    exact_mod_cast h100
  calc ((c : ℚ) / 100) * th ≤ 1 * th := mul_le_mul_of_nonneg_right h1 hth
  _ = th := one_mul th

/-- One scan step preserves the derived-hours bound for every accumulated
record. -/
theorem excelStep_bound (st : Option (Option String) × List TaskRec) (x : ExcelRow)
    (hst : ∀ r ∈ st.2, 0 ≤ r.time_hours → r.creative_hours ≤ r.time_hours) :
    ∀ r ∈ (excelStep st x).2, 0 ≤ r.time_hours → r.creative_hours ≤ r.time_hours := by
  unfold excelStep
  split
  · exact hst
  · split
    · intro r hr
      rcases List.mem_cons.mp hr with h | h
      · subst h
        intro ht
        simpa [mkExcelTask] using ht
      · exact hst r h
    · split
      · split
        · exact hst
        · rename_i hacc
          split
          · rename_i p hp
            intro r hr
            rcases List.mem_cons.mp hr with h | h
            · subst h
              intro ht
              simp only at ht ⊢
              exact ratio_bound (extract_range hp).2 ht
            · exact fun ht => hst r (hacc ▸ List.mem_cons_of_mem _ h) ht
          · exact hst
      · exact hst

/-- The scan preserves the derived-hours bound. -/
theorem foldl_excel_bound (rows : List ExcelRow) :
    ∀ st : Option (Option String) × List TaskRec,
      (∀ r ∈ st.2, 0 ≤ r.time_hours → r.creative_hours ≤ r.time_hours) →
      ∀ r ∈ (rows.foldl excelStep st).2,
        0 ≤ r.time_hours → r.creative_hours ≤ r.time_hours := by
  induction rows with
  | nil => exact fun st hst => hst
  | cons x rows ih =>
      intro st hst
      exact ih (excelStep st x) (excelStep_bound st x hst)

/-- C8 (amended): every record produced by the hierarchical reshaper or by
the worklog normalizer whose `time_hours` is non-negative satisfies
`creative_hours ≤ time_hours` (the extractor caps `creative_percent` at
100).  The non-negativity hypothesis is forced by the counterexample: a
negative parsed time reverses the inequality. -/
theorem c8_derived_hours_bound (rows : List ExcelRow) (ws : List WorklogRow)
    (r : TaskRec)
    (hr : r ∈ process_excel_data rows ∨ r ∈ process_worklogs_data ws)
    (ht : 0 ≤ r.time_hours) : r.creative_hours ≤ r.time_hours := by
  rcases hr with h | h
  · refine foldl_excel_bound rows (none, []) (by simp) r ?_ ht
    simpa [process_excel_data] using h
  · obtain ⟨w, _, rfl⟩ := List.mem_map.mp h
    simp only [processWorklogRow]
    exact ratio_bound (getD_extract_range w.percentText).2
      (by simpa [processWorklogRow] using ht)

/-- C8 witness: a worklog row with empty time and percent cells produces a
record with `time_hours = 0`, and the theorem bounds its creative hours. -/
theorem c8_derived_hours_bound_witness :
    processWorklogRow ⟨some "A", some "T", some "K", none, none⟩ ∈
      process_worklogs_data [⟨some "A", some "T", some "K", none, none⟩] ∧
    0 ≤ (processWorklogRow ⟨some "A", some "T", some "K", none, none⟩).time_hours ∧
    (processWorklogRow ⟨some "A", some "T", some "K", none, none⟩).creative_hours ≤
      (processWorklogRow ⟨some "A", some "T", some "K", none, none⟩).time_hours := by
  refine ⟨List.mem_singleton.mpr rfl, le_refl 0, ?_⟩
  exact c8_derived_hours_bound [] [⟨some "A", some "T", some "K", none, none⟩]
    (processWorklogRow ⟨some "A", some "T", some "K", none, none⟩)
    (Or.inr (List.mem_singleton.mpr rfl)) (le_refl 0)

/-- A step on a row whose level is not 0 keeps `current_user` unset. -/
theorem excelStep_cu_none (st : Option (Option String) × List TaskRec) (x : ExcelRow)
    (hcu : st.1 = none) (hx : x.level ≠ 0) : (excelStep st x).1 = none := by
  unfold excelStep
  split
  · exact absurd (by assumption) hx
  · split
    · rename_i hc
      rw [hcu] at hc
      exact absurd hc.2 (by simp [truthyUser])
    · split
      · split
        · exact hcu
        · split
          · exact hcu
          · exact hcu
      · exact hcu

/-- Scanning rows with no level-0 row leaves `current_user` unset. -/
theorem foldl_excel_cu_none (rows : List ExcelRow) :
    ∀ st : Option (Option String) × List TaskRec, st.1 = none →
      (∀ q ∈ rows, q.level ≠ 0) → (rows.foldl excelStep st).1 = none := by
  induction rows with
  | nil => exact fun st h _ => h
  | cons x rows ih =>
      intro st hst hall
      exact ih (excelStep st x)
        (excelStep_cu_none st x hst (hall x (List.mem_cons_self x rows)))
        (fun q hq => hall q (List.mem_cons_of_mem x hq))

/-- Scanning rows with no level-1 row accumulates no record. -/
theorem foldl_excel_acc_nil (rows : List ExcelRow) :
    ∀ cu : Option (Option String), (∀ q ∈ rows, q.level ≠ 1) →
      (rows.foldl excelStep (cu, [])).2 = [] := by
  induction rows with
  | nil => exact fun cu _ => rfl
  | cons x rows ih =>
      intro cu hall
      have hx := hall x (List.mem_cons_self x rows)
      have hrest := fun q hq => hall q (List.mem_cons_of_mem x hq)
      have hstep : ∃ cu2, excelStep (cu, []) x = (cu2, []) := by
        unfold excelStep
        split
        · exact ⟨some x.description, rfl⟩
        · split
          · rename_i hc
            exact absurd hc.1 hx
          · split
            · exact ⟨cu, rfl⟩
            · exact ⟨cu, rfl⟩
      obtain ⟨cu2, hcu2⟩ := hstep
      simpa [hcu2] using ih cu2 hrest

/-- Scanning level-2 rows over an open task only rewrites the open task's
percent fields; all identifying fields and the time survive. -/
theorem foldl_excel_level2 (ds : List ExcelRow) :
    ∀ (cu : Option (Option String)) (t : TaskRec) (ts : List TaskRec),
      (∀ q ∈ ds, q.level = 2) →
      ∃ cp ch, ds.foldl excelStep (cu, t :: ts) =
        (cu, ({ t with creative_percent := cp, creative_hours := ch } : TaskRec) :: ts) := by
  induction ds with
  | nil =>
      intro cu t ts _
      exact ⟨t.creative_percent, t.creative_hours, rfl⟩
  | cons d ds ih =>
      intro cu t ts hall
      have hd := hall d (List.mem_cons_self d ds)
      have hrest := fun q hq => hall q (List.mem_cons_of_mem d hq)
      have hstep : ∃ cp ch, excelStep (cu, t :: ts) d =
          (cu, ({ t with creative_percent := cp, creative_hours := ch } : TaskRec) :: ts) := by
        unfold excelStep
        split
        · rename_i h0
          exact absurd (hd ▸ h0) (by norm_num)
        · split
          · rename_i hc
            exact absurd (hd ▸ hc.1) (by norm_num)
          · split
            · split
              · rename_i hnil
                exact absurd hnil (by simp)
              · rename_i hcons
                obtain ⟨rfl, rfl⟩ : t = _ ∧ ts = _ := by
                  have := hcons
                  exact ⟨by injection this, by injection this⟩
                split
                · exact ⟨_, _, rfl⟩
                · exact ⟨t.creative_percent, t.creative_hours, rfl⟩
            · exact ⟨t.creative_percent, t.creative_hours, rfl⟩
      obtain ⟨cp1, ch1, hstep⟩ := hstep
      rw [List.foldl_cons, hstep]
      obtain ⟨cp2, ch2, hrec⟩ := ih cu _ ts hrest
      exact ⟨cp2, ch2, hrec⟩

/-- A level-1 row is skipped while `current_user` is falsy. -/
theorem excelStep_skip_level1 (st : Option (Option String) × List TaskRec)
    (x : ExcelRow) (hx : x.level = 1) (hcu : truthyUser st.1 = false) :
    excelStep st x = st := by
  unfold excelStep
  split
  · rename_i h0
    rw [hx] at h0
    exact absurd h0 (by norm_num)
  · split
    · rename_i hc
      rw [hcu] at hc
      exact absurd hc.2 (by simp)
    · split
      · rename_i hc
        rw [hx] at hc
        exact absurd hc.1 (by norm_num)
      · rfl

/-- A level-2 row is skipped while no record has been appended. -/
theorem excelStep_skip_level2 (st : Option (Option String) × List TaskRec)
    (x : ExcelRow) (hx : x.level = 2) (hacc : st.2 = []) :
    excelStep st x = st := by
  unfold excelStep
  split
  · rename_i h0
    rw [hx] at h0
    exact absurd h0 (by norm_num)
  · split
    · rename_i hc
      rw [hx] at hc
      exact absurd hc.1 (by norm_num)
    · split
      · split
        · rfl
        · rename_i hcons
          rw [hacc] at hcons
          exact absurd hcons (by simp)
      · rfl

/-- C4: transition rules of the hierarchical reshaper's single scan:
(a) a level-1 row arriving while no level-0 row has been seen appends no
record; (b) a level-2 row arriving while no level-1 row has been seen
changes nothing; (c) under one level-1 row, each level-2 row whose percent
extraction succeeds overwrites the open task's percent, so the last such
row wins (no averaging): with any level-2 rows `ds` between and a final
level-2 row extracting to `p`, the single output record carries
`creative_percent = p` and `creative_hours = p/100 * time_hours`. -/
theorem c4_reshaper_transitions :
    (∀ (pre : List ExcelRow) (x : ExcelRow), (∀ q ∈ pre, q.level ≠ 0) →
      x.level = 1 → process_excel_data (pre ++ [x]) = process_excel_data pre) ∧
    (∀ (pre : List ExcelRow) (x : ExcelRow), (∀ q ∈ pre, q.level ≠ 1) →
      x.level = 2 → process_excel_data (pre ++ [x]) = process_excel_data pre) ∧
    (∀ (e0 e1 dl : ExcelRow) (ds : List ExcelRow) (p : ℤ),
      e0.level = 0 → truthyUser (some e0.description) = true → e1.level = 1 →
      (∀ q ∈ ds, q.level = 2) → dl.level = 2 →
      extract_creative_percentage dl.description = some p →
      process_excel_data (e0 :: e1 :: (ds ++ [dl])) =
        [{ mkExcelTask (some e0.description) e1 with
            creative_percent := some p
          , creative_hours := ((p : ℚ) / 100) *
              parse_time_to_hours e1.timeSpent }]) := by
  refine ⟨?_, ?_, ?_⟩
  · intro pre x hpre hx
    unfold process_excel_data
    rw [List.foldl_append, List.foldl_cons, List.foldl_nil,
      excelStep_skip_level1 _ x hx
        (by rw [foldl_excel_cu_none pre (none, []) rfl hpre]; rfl)]
  · intro pre x hpre hx
    unfold process_excel_data
    rw [List.foldl_append, List.foldl_cons, List.foldl_nil,
      excelStep_skip_level2 _ x hx (foldl_excel_acc_nil pre none hpre)]
  · intro e0 e1 dl ds p h0 htr h1 hds hdl hex
    unfold process_excel_data
    have s0 : excelStep (none, []) e0 = (some e0.description, []) := by
      unfold excelStep
      rw [if_pos h0]
    have s1 : excelStep (some e0.description, []) e1 =
        (some e0.description, [mkExcelTask (some e0.description) e1]) := by
      unfold excelStep
      rw [if_neg (by rw [h1]; norm_num), if_pos ⟨h1, htr⟩]
    rw [List.foldl_cons, s0, List.foldl_cons, s1, List.foldl_append]
    obtain ⟨cp1, ch1, hmid⟩ :=
      foldl_excel_level2 ds (some e0.description)
        (mkExcelTask (some e0.description) e1) [] hds
    rw [hmid]
    have sl : excelStep (some e0.description,
        [({ mkExcelTask (some e0.description) e1 with
            creative_percent := cp1, creative_hours := ch1 } : TaskRec)]) dl =
        (some e0.description,
          [{ mkExcelTask (some e0.description) e1 with
              creative_percent := some p
            , creative_hours := ((p : ℚ) / 100) *
                parse_time_to_hours e1.timeSpent }]) := by
      unfold excelStep
      rw [if_neg (by rw [hdl]; norm_num),
        if_neg (by rw [hdl]; exact fun hc => by norm_num at hc)]
      have hdesc : dl.description ≠ none := by
        intro hnone
        rw [hnone] at hex
        exact absurd hex (by simp [extract_creative_percentage])
      rw [if_pos ⟨hdl, hdesc⟩]
      simp only [hex, mkExcelTask]
    rw [List.foldl_cons, sl, List.foldl_nil]
    rfl

/-- C4 witness: concrete instances of the three transition rules — an
orphan level-1 row yields nothing, an orphan level-2 row changes nothing,
and of two extractable level-2 rows under one task the later (`"50"`)
wins. -/
theorem c4_reshaper_transitions_witness :
    process_excel_data ([] ++ [⟨1, some "T", some "K", none⟩]) =
      process_excel_data [] ∧
    process_excel_data ([⟨0, some "Jan", none, none⟩] ++ [⟨2, some "90", none, none⟩]) =
      process_excel_data [⟨0, some "Jan", none, none⟩] ∧
    process_excel_data
        (⟨0, some "Jan", none, none⟩ :: ⟨1, some "T", some "K", none⟩ ::
          ([⟨2, some "90", none, none⟩] ++ [⟨2, some "50", none, none⟩])) =
      [{ mkExcelTask (some (some "Jan")) ⟨1, some "T", some "K", none⟩ with
          creative_percent := some 50
        , creative_hours := ((50 : ℤ) : ℚ) / 100 * parse_time_to_hours none }] := by
  refine ⟨?_, ?_, ?_⟩
  · exact c4_reshaper_transitions.1 [] ⟨1, some "T", some "K", none⟩
      (by intro q hq; exact absurd hq (by simp)) rfl
  · exact c4_reshaper_transitions.2.1 [⟨0, some "Jan", none, none⟩]
      ⟨2, some "90", none, none⟩ (by intro q hq; simp at hq; rw [hq]; norm_num) rfl
  · exact c4_reshaper_transitions.2.2 ⟨0, some "Jan", none, none⟩
      ⟨1, some "T", some "K", none⟩ ⟨2, some "50", none, none⟩
      [⟨2, some "90", none, none⟩] 50 rfl (by decide) rfl
      (by intro q hq; simp at hq; rw [hq]) rfl (by decide)

/-- C9: severity split of `validate_data_structure`: a missing required
column (`Level` or the description column) or an empty table is reported in
the first component (blocking issues, and then no warnings accompany it);
when the required columns are present and the table is non-empty the first
component is empty, and the structural anomalies — no level-0 rows,
duplicate user names, no level-2 creative data — are reported only in the
second component (warnings). -/
theorem c9_validate_severity_split :
    (∀ df : RawSheet, df.hasLevel = false ∨ df.hasDesc = false →
      (validate_data_structure df).2 = [] ∧
      ∃ t, (validate_data_structure df).1 = ["Brakujące kolumny: " ++ t]) ∧
    (∀ df : RawSheet, df.hasLevel = true → df.hasDesc = true → df.rows = [] →
      validate_data_structure df = (["Plik jest pusty"], [])) ∧
    (∀ df : RawSheet, df.hasLevel = true → df.hasDesc = true → df.rows ≠ [] →
      (validate_data_structure df).1 = [] ∧
      ((∀ r ∈ df.rows, r.level ≠ some 0) →
        "Brak poziomu 0 (użytkownicy) - może być problem ze strukturą" ∈
          (validate_data_structure df).2) ∧
      (dupValues ((levelRows df 0).filterMap (·.desc)) ≠ [] →
        ∃ t, ("Wykryto duplikaty użytkowników: " ++ t) ∈
          (validate_data_structure df).2) ∧
      ((∀ r ∈ df.rows, r.level = some 2 → r.desc = none) →
        "Brak danych o procentach pracy twórczej (Level 2)" ∈
          (validate_data_structure df).2)) := by
  refine ⟨?_, ?_, ?_⟩
  · intro df h
    have hb : (!df.hasLevel || !df.hasDesc) = true := by
      rcases h with h | h <;> simp [h]
    unfold validate_data_structure
    rw [if_pos hb]
    exact ⟨rfl, _, rfl⟩
  · intro df h1 h2 h3
    have hb : (!df.hasLevel || !df.hasDesc) = false := by simp [h1, h2]
    unfold validate_data_structure
    rw [if_neg (by simp [hb]), if_pos (by simp [h3])]
  · intro df h1 h2 h3
    have hb : (!df.hasLevel || !df.hasDesc) = false := by simp [h1, h2]
    unfold validate_data_structure
    rw [if_neg (by simp [hb]), if_neg (by simp [h3])]
    refine ⟨rfl, ?_, ?_, ?_⟩
    · intro hno
      have hc : (df.rows.filterMap (·.level)).contains 0 = false := by
        rw [Bool.eq_false_iff]
        intro hcon
        obtain ⟨b, hb, hbeq⟩ := List.contains_iff_exists_mem_beq.mp hcon
        obtain ⟨r, hr, hlev⟩ := List.mem_filterMap.mp hb
        exact hno r hr (by rw [hlev, eq_of_beq hbeq])
      simp only [hc]
      simp
    · intro hdup
      have hd : (dupValues ((levelRows df 0).filterMap (·.desc))).isEmpty = false := by
        simpa [List.isEmpty_iff] using hdup
      simp only [hd]
      refine ⟨joinComma ((dupValues ((levelRows df 0).filterMap (·.desc))).take 3) ++
        (if (dupValues ((levelRows df 0).filterMap (·.desc))).length > 3 then
          " i " ++ String.mk (natToChars
            ((dupValues ((levelRows df 0).filterMap (·.desc))).length - 3)) ++ " więcej"
        else ""), ?_⟩
      rw [← String.append_assoc]
      split <;> simp
    · intro hcr
      have hc : ((levelRows df 2).filterMap (·.desc)).isEmpty = true := by
        rw [List.isEmpty_iff, List.filterMap_eq_nil_iff]
        intro r hr
        exact hcr r (List.mem_filter.mp hr).1
          (of_decide_eq_true (List.mem_filter.mp hr).2)
      simp only [hc]
      simp

/-- C9 witness: instances of the three severity rules — a sheet missing the
description column, an empty sheet, and a one-user sheet with no creative
rows. -/
theorem c9_validate_severity_split_witness :
    (validate_data_structure ⟨true, false, true, []⟩).2 = [] ∧
    (∃ t, (validate_data_structure ⟨true, false, true, []⟩).1 =
      ["Brakujące kolumny: " ++ t]) ∧
    validate_data_structure ⟨true, true, true, []⟩ = (["Plik jest pusty"], []) ∧
    (validate_data_structure
      ⟨true, true, true, [⟨some 1, some "t", some "3:00"⟩]⟩).1 = [] ∧
    "Brak poziomu 0 (użytkownicy) - może być problem ze strukturą" ∈
      (validate_data_structure
        ⟨true, true, true, [⟨some 1, some "t", some "3:00"⟩]⟩).2 ∧
    "Brak danych o procentach pracy twórczej (Level 2)" ∈
      (validate_data_structure
        ⟨true, true, true, [⟨some 1, some "t", some "3:00"⟩]⟩).2 := by
  refine ⟨(c9_validate_severity_split.1 ⟨true, false, true, []⟩ (Or.inr rfl)).1,
    (c9_validate_severity_split.1 ⟨true, false, true, []⟩ (Or.inr rfl)).2,
    c9_validate_severity_split.2.1 ⟨true, true, true, []⟩ rfl rfl rfl,
    (c9_validate_severity_split.2.2 ⟨true, true, true, [⟨some 1, some "t", some "3:00"⟩]⟩
      rfl rfl (by simp)).1,
    (c9_validate_severity_split.2.2 ⟨true, true, true, [⟨some 1, some "t", some "3:00"⟩]⟩
      rfl rfl (by simp)).2.1 (by decide),
    (c9_validate_severity_split.2.2 ⟨true, true, true, [⟨some 1, some "t", some "3:00"⟩]⟩
      rfl rfl (by simp)).2.2.2 (by decide)⟩

/-! ## Digit-string lemmas for the time-format round trip (C5) -/

theorem isDigitCh_digitCh (n : ℕ) : isDigitCh (digitCh n) = true := by
  unfold digitCh
  split <;> decide

theorem digitVal_digitCh {n : ℕ} (h : n < 10) : digitVal (digitCh n) = n := by
  interval_cases n <;> decide

theorem natToChars_ne_nil (n : ℕ) : natToChars n ≠ [] := by
  rw [natToChars]
  split
  · simp
  · simp

theorem natToChars_all_digit (n : ℕ) : ∀ c ∈ natToChars n, isDigitCh c = true := by
  induction n using Nat.strong_induction_on with
  | _ n ih =>
      rw [natToChars]
      split
      · intro c hc
        rw [List.mem_singleton.mp hc]
        exact isDigitCh_digitCh n
      · intro c hc
        rcases List.mem_append.mp hc with h | h
        · exact ih (n / 10) (Nat.div_lt_self (by omega) (by omega)) c h
        · rw [List.mem_singleton.mp h]
          exact isDigitCh_digitCh (n % 10)

theorem digitsVal_snoc (l : List Char) (c : Char) :
    digitsVal (l ++ [c]) = 10 * digitsVal l + digitVal c := by
  unfold digitsVal
  rw [List.foldl_append]
  rfl

theorem digitsVal_natToChars (n : ℕ) : digitsVal (natToChars n) = n := by
  induction n using Nat.strong_induction_on with
  | _ n ih =>
      rw [natToChars]
      split
      · rename_i h
        show 10 * 0 + digitVal (digitCh n) = n
        rw [digitVal_digitCh h]
        omega
      · rename_i h
        rw [digitsVal_snoc, ih (n / 10) (Nat.div_lt_self (by omega) (by omega)),
          digitVal_digitCh (Nat.mod_lt n (by omega))]
        omega

theorem digitsVal_pad2 (m : ℕ) : digitsVal (pad2 m) = m := by
  unfold pad2
  split
  · show digitsVal (natToChars m) = m
    exact digitsVal_natToChars m
  · exact digitsVal_natToChars m

theorem pad2_ne_nil (m : ℕ) : pad2 m ≠ [] := by
  unfold pad2
  split
  · simp
  · exact natToChars_ne_nil m

theorem pad2_all_digit (m : ℕ) : ∀ c ∈ pad2 m, isDigitCh c = true := by
  unfold pad2
  split
  · intro c hc
    rcases List.mem_cons.mp hc with h | h
    · rw [h]; decide
    · exact natToChars_all_digit m c h
  · exact natToChars_all_digit m

theorem readNat_digits {cs : List Char} (hne : cs ≠ [])
    (hall : ∀ c ∈ cs, isDigitCh c = true) : readNat cs = some (digitsVal cs) := by
  unfold readNat
  rw [if_neg (by simpa [List.isEmpty_iff] using hne),
    if_pos (List.all_eq_true.mpr hall)]

theorem readInt_digits {cs : List Char} (hne : cs ≠ [])
    (hall : ∀ c ∈ cs, isDigitCh c = true) :
    readInt cs = some ((digitsVal cs : ℕ) : ℤ) := by
  cases cs with
  | nil => exact absurd rfl hne
  | cons c rest =>
      have hc := hall c (List.mem_cons_self c rest)
      have h1 : c ≠ '-' := by rintro rfl; simp [isDigitCh] at hc
      have h2 : c ≠ '+' := by rintro rfl; simp [isDigitCh] at hc
      simp only [readInt, if_neg h1, if_neg h2,
        readNat_digits (List.cons_ne_nil c rest) hall, Option.map_some']
      rfl

theorem digit_ne_colon {c : Char} (h : isDigitCh c = true) : c ≠ ':' := by
  rintro rfl
  simp [isDigitCh] at h

theorem digit_not_space {c : Char} (h : isDigitCh c = true) : isSpaceCh c = false := by
  simp only [isDigitCh, Bool.and_eq_true, decide_eq_true_eq] at h
  simp only [isSpaceCh, Bool.or_eq_false_iff, decide_eq_false_iff_not]
  omega

theorem dropWhile_no_space {l : List Char} (h : ∀ c ∈ l, isSpaceCh c = false) :
    l.dropWhile isSpaceCh = l := by
  cases l with
  | nil => rfl
  | cons c t =>
      rw [List.dropWhile_cons, if_neg (by simp [h c (List.mem_cons_self c t)])]

theorem stripChars_no_space {cs : List Char} (h : ∀ c ∈ cs, isSpaceCh c = false) :
    stripChars cs = cs := by
  unfold stripChars
  rw [dropWhile_no_space h,
    dropWhile_no_space (fun c hc => h c (List.mem_reverse.mp hc)),
    List.reverse_reverse]

theorem splitOnAux_no_sep {sep : Char} (a : List Char) :
    ∀ (acc b : List Char), (∀ c ∈ a, c ≠ sep) →
      splitOnAux sep (a ++ sep :: b) acc = (acc.reverse ++ a) :: splitOnAux sep b [] := by
  induction a with
  | nil =>
      intro acc b _
      show (if sep = sep then _ else _) = _
      rw [if_pos rfl]
      simp
  | cons c a ih =>
      intro acc b hall
      simp only [List.cons_append, splitOnAux, List.append_eq]
      rw [if_neg (hall c (List.mem_cons_self c a)),
        ih (c :: acc) b (fun d hd => hall d (List.mem_cons_of_mem c hd))]
      simp

theorem splitOnAux_all_no_sep {sep : Char} (a : List Char) :
    ∀ acc : List Char, (∀ c ∈ a, c ≠ sep) →
      splitOnAux sep a acc = [acc.reverse ++ a] := by
  induction a with
  | nil =>
      intro acc _
      simp [splitOnAux]
  | cons c a ih =>
      intro acc hall
      simp only [splitOnAux]
      rw [if_neg (hall c (List.mem_cons_self c a)),
        ih (c :: acc) (fun d hd => hall d (List.mem_cons_of_mem c hd))]
      simp

theorem splitOnChar_parts {a b : List Char} (ha : ∀ c ∈ a, c ≠ ':')
    (hb : ∀ c ∈ b, c ≠ ':') :
    splitOnChar ':' (a ++ ':' :: b) = [a, b] := by
  unfold splitOnChar
  rw [splitOnAux_no_sep a [] b ha, splitOnAux_all_no_sep b [] hb]
  simp

/-- `hours_to_hm_format` on a non-zero whole-minute value renders
`H:MM` from the minute count. -/
theorem format_whole_minutes {m : ℕ} (hm : m ≠ 0) :
    hours_to_hm_format (some ((m : ℚ) / 60)) =
      String.mk (natToChars (m / 60) ++ ':' :: pad2 (m % 60)) := by
  have hne : ((m : ℚ) / 60) ≠ 0 := div_ne_zero (Nat.cast_ne_zero.mpr hm) (by norm_num)
  unfold hours_to_hm_format
  dsimp only
  rw [if_neg hne]
  have h60 : ((m : ℚ) / 60) * 60 = ((m : ℕ) : ℚ) := div_mul_cancel₀ _ (by norm_num)
  rw [h60]
  have htr : pyTrunc ((m : ℕ) : ℚ) = (m : ℤ) := by
    unfold pyTrunc
    rw [if_pos (by positivity)]
    exact Int.floor_natCast m
  rw [htr]
  have hdiv : pyFloorDiv (m : ℤ) 60 = ((m / 60 : ℕ) : ℤ) :=
    (Int.ofNat_fdiv m 60).symm
  have hmod : pyFloorMod (m : ℤ) 60 = ((m % 60 : ℕ) : ℤ) :=
    (Int.ofNat_fmod m 60).symm
  rw [hdiv, hmod, Int.toNat_natCast]
  have hic : intToChars ((m / 60 : ℕ) : ℤ) = natToChars (m / 60) := by
    unfold intToChars
    rw [if_neg (not_lt.mpr (Int.natCast_nonneg _)), Int.toNat_natCast]
  rw [hic]

/-- Parsing a digit string, a colon and a digit string recovers
`hours + minutes/60`. -/
theorem parse_clock {a b : List Char} (hane : a ≠ [])
    (hada : ∀ c ∈ a, isDigitCh c = true) (hbd : ∀ c ∈ b, isDigitCh c = true)
    (hbne : b ≠ []) :
    parse_time_to_hours (some (String.mk (a ++ ':' :: b))) =
      (((digitsVal a : ℕ) : ℤ) : ℚ) + (((digitsVal b : ℕ) : ℤ) : ℚ) / 60 := by
  have hsne : String.mk (a ++ ':' :: b) ≠ "" := by
    intro h
    simpa using congrArg String.data h
  have hnospace : ∀ c ∈ a ++ ':' :: b, isSpaceCh c = false := by
    intro c hc
    rcases List.mem_append.mp hc with h | h
    · exact digit_not_space (hada c h)
    · rcases List.mem_cons.mp h with h | h
      · rw [h]; rfl
      · exact digit_not_space (hbd c h)
  have hcolon : (a ++ ':' :: b).contains ':' = true :=
    List.contains_iff_exists_mem_beq.mpr ⟨':', by simp, by simp⟩
  unfold parse_time_to_hours
  dsimp only
  rw [if_neg hsne, stripChars_no_space hnospace, if_pos hcolon,
    splitOnChar_parts (fun c hc => digit_ne_colon (hada c hc))
      (fun c hc => digit_ne_colon (hbd c hc))]
  simp only [List.headD_cons, List.drop_succ_cons, List.drop_zero, List.head?_cons,
    readInt_digits hane hada, readInt_digits hbne hbd]

/-- C5: the time-format round trip.  For every number of hours representable
in whole minutes (`h = m/60` with `m : ℕ`, which covers every non-negative
such value), `parse_time_to_hours (hours_to_hm_format h) = h` exactly —
in particular within the claimed 1/60 tolerance — and `hours_to_hm_format`
maps both 0 and the null value to `"0:00"`. -/
theorem c5_time_format_round_trip :
    (∀ m : ℕ, parse_time_to_hours (some (hours_to_hm_format (some ((m : ℚ) / 60)))) =
      (m : ℚ) / 60) ∧
    hours_to_hm_format (some 0) = "0:00" ∧
    hours_to_hm_format none = "0:00" := by
  refine ⟨?_, rfl, rfl⟩
  intro m
  by_cases hm : m = 0
  · subst hm
    rw [show ((0 : ℕ) : ℚ) / 60 = 0 by norm_num]
    have h0 : hours_to_hm_format (some 0) = "0:00" := rfl
    rw [h0]
    have hp : parse_time_to_hours (some "0:00") =
        (((0 : ℕ) : ℤ) : ℚ) + (((0 : ℕ) : ℤ) : ℚ) / 60 := rfl
    rw [hp]
    norm_num
  · rw [format_whole_minutes hm,
      parse_clock (natToChars_ne_nil (m / 60)) (natToChars_all_digit (m / 60))
        (pad2_all_digit (m % 60)) (pad2_ne_nil (m % 60)),
      digitsVal_natToChars, digitsVal_pad2]
    have h60 : (60 : ℚ) ≠ 0 := by norm_num
    field_simp
    norm_cast
    omega

/-! ## Lemmas about the scorer (C3, C7) -/

theorem mem_uniqAux {α : Type} [DecidableEq α] (l : List α) :
    ∀ (seen : List α) (x : α), x ∈ uniqAux l seen ↔ x ∈ l ∧ x ∉ seen := by
  induction l with
  | nil => intro seen x; simp [uniqAux]
  | cons y l ih =>
      intro seen x
      unfold uniqAux
      split
      · rename_i hy
        rw [ih seen x]
        constructor
        · exact fun ⟨h1, h2⟩ => ⟨List.mem_cons_of_mem y h1, h2⟩
        · rintro ⟨h1, h2⟩
          rcases List.mem_cons.mp h1 with rfl | h1
          · exact absurd hy h2
          · exact ⟨h1, h2⟩
      · rename_i hy
        constructor
        · intro hx
          rcases List.mem_cons.mp hx with rfl | hx
          · exact ⟨List.mem_cons_self x l, hy⟩
          · obtain ⟨h1, h2⟩ := (ih (y :: seen) x).mp hx
            exact ⟨List.mem_cons_of_mem y h1,
              fun hc => h2 (List.mem_cons_of_mem y hc)⟩
        · rintro ⟨h1, h2⟩
          rcases List.mem_cons.mp h1 with rfl | h1
          · exact List.mem_cons_self x _
          · by_cases hxy : x = y
            · exact hxy ▸ List.mem_cons_self x _
            · exact List.mem_cons_of_mem y ((ih (y :: seen) x).mpr
                ⟨h1, by simp [hxy, h2]⟩)

theorem nodup_uniqAux {α : Type} [DecidableEq α] (l : List α) :
    ∀ seen : List α, (uniqAux l seen).Nodup := by
  induction l with
  | nil => intro seen; simp [uniqAux]
  | cons y l ih =>
      intro seen
      unfold uniqAux
      split
      · exact ih seen
      · refine List.Nodup.cons ?_ (ih (y :: seen))
        intro hy
        exact ((mem_uniqAux l (y :: seen) y).mp hy).2 (List.mem_cons_self y seen)

theorem mem_uniqFirst {α : Type} [DecidableEq α] {l : List α} {x : α} :
    x ∈ uniqFirst l ↔ x ∈ l := by
  rw [uniqFirst, mem_uniqAux]
  simp

theorem nodup_uniqFirst {α : Type} [DecidableEq α] (l : List α) :
    (uniqFirst l).Nodup := nodup_uniqAux l []

theorem argmaxFirst_mem {α : Type} {f : α → ℚ} :
    ∀ {l : List α} {y : α}, argmaxFirst f l = some y → y ∈ l := by
  intro l
  induction l with
  | nil => intro y h; exact absurd h (by simp [argmaxFirst])
  | cons x xs ih =>
      intro y h
      unfold argmaxFirst at h
      split at h
      · rw [Option.some.injEq] at h
        exact h ▸ List.mem_cons_self x xs
      · rename_i z hz
        split at h <;> rw [Option.some.injEq] at h
        · exact h ▸ List.mem_cons_of_mem x (ih hz)
        · exact h ▸ List.mem_cons_self x xs

theorem argmaxFirst_ne_none {α : Type} {f : α → ℚ} {x : α} {xs : List α} :
    argmaxFirst f (x :: xs) ≠ none := by
  unfold argmaxFirst
  split
  · simp
  · split <;> simp

theorem argmaxFirst_le {α : Type} {f : α → ℚ} :
    ∀ {l : List α} {y : α}, argmaxFirst f l = some y → ∀ x ∈ l, f x ≤ f y := by
  intro l
  induction l with
  | nil => intro y _ x hx; exact absurd hx (by simp)
  | cons a xs ih =>
      intro y h x hx
      unfold argmaxFirst at h
      split at h
      · rename_i hnone
        rw [Option.some.injEq] at h
        subst h
        rcases List.mem_cons.mp hx with rfl | hx
        · exact le_refl _
        · cases xs with
          | nil => exact absurd hx (by simp)
          | cons b bs => exact absurd hnone (argmaxFirst_ne_none)
      · rename_i z hz
        split at h <;> rw [Option.some.injEq] at h <;> subst h
        · rcases List.mem_cons.mp hx with rfl | hx
          · rename_i hgt
            exact le_of_lt hgt
          · exact ih hz x hx
        · rcases List.mem_cons.mp hx with rfl | hx
          · exact le_refl _
          · rename_i hngt
            exact le_trans (ih hz x hx) (not_lt.mp hngt)

theorem argmaxFirst_of_ne_nil {α : Type} {f : α → ℚ} {l : List α} (h : l ≠ []) :
    ∃ y, argmaxFirst f l = some y := by
  cases l with
  | nil => exact absurd rfl h
  | cons x xs =>
      unfold argmaxFirst
      split
      · exact ⟨x, rfl⟩
      · split
        · exact ⟨_, rfl⟩
        · exact ⟨x, rfl⟩

theorem topTaskFor_person (rs : List TaskRec) (p : Option String) :
    (topTaskFor rs p).person = p := by
  unfold topTaskFor
  dsimp only
  split
  · rename_i best hbest
    have hm := argmaxFirst_mem hbest
    have := (List.mem_filter.mp ((List.mem_filter.mp hm).1)).2
    exact of_decide_eq_true this
  · split
    · rename_i best hbest
      have hm := argmaxFirst_mem hbest
      exact of_decide_eq_true (List.mem_filter.mp hm).2
    · rfl

theorem topTaskFor_total (rs : List TaskRec) (p : Option String) :
    (topTaskFor rs p).total_score = person_total_score rs p := by
  unfold topTaskFor
  dsimp only
  split
  · rfl
  · split <;> rfl

/-- In a duplicate-free list the predicate "equals `p`" counts exactly one
element when `p` occurs. -/
theorem countP_eq_one_of_nodup_mem {α : Type} [DecidableEq α] {l : List α}
    (hn : l.Nodup) {p : α} (hp : p ∈ l) :
    l.countP (fun x => decide (x = p)) = 1 := by
  induction l with
  | nil => exact absurd hp (by simp)
  | cons a l ih =>
      have hninl := (List.nodup_cons.mp hn).1
      have hnl := (List.nodup_cons.mp hn).2
      rcases List.mem_cons.mp hp with rfl | hpl
      · rw [List.countP_cons, if_pos (by simp)]
        have h0 : l.countP (fun x => decide (x = p)) = 0 := by
          rw [List.countP_eq_zero]
          intro x hx
          simp only [decide_eq_true_eq]
          rintro rfl
          exact hninl hx
        omega
      · rw [List.countP_cons,
          if_neg (by simp only [decide_eq_true_eq]; rintro rfl; exact hninl hpl),
          ih hnl hpl]

/-- Every output row of `get_top_task_per_person` is `topTaskFor` at its own
person, for a person of the table. -/
theorem mem_get_top (rs : List TaskRec) {t : TopRec}
    (ht : t ∈ get_top_task_per_person rs) :
    t.person ∈ rs.map (·.person) ∧ t = topTaskFor rs t.person := by
  have h1 : t ∈ topTableUnsorted rs :=
    (List.perm_insertionSort scoreGE (topTableUnsorted rs)).mem_iff.mp ht
  obtain ⟨p, hp, rfl⟩ := List.mem_map.mp h1
  have hpp := topTaskFor_person rs p
  have hmem : p ∈ rs.map (·.person) := by
    have := (List.perm_insertionSort persLE (uniqFirst (rs.map (·.person)))).mem_iff.mp hp
    exact mem_uniqFirst.mp this
  rw [hpp]
  exact ⟨hmem, rfl⟩

/-- A table on which the per-person total score and the single top-task
score rank the two persons oppositely: person A has two creative tasks
(scores 2.5 and 2.0, total 4.5), person B one (score 3.6, total 3.6). -/
def c3CexTable : List TaskRec :=
  [⟨some "A", some "T1", some "K1", 10, some 50, 5⟩,
   ⟨some "A", some "T2", some "K2", 8, some 50, 4⟩,
   ⟨some "B", some "T3", some "K3", 10, some 60, 6⟩]

theorem c3cex_argmax_A :
    argmaxFirst rowScore
      [(⟨some "A", some "T1", some "K1", 10, some 50, 5⟩ : TaskRec),
       ⟨some "A", some "T2", some "K2", 8, some 50, 4⟩] =
      some ⟨some "A", some "T1", some "K1", 10, some 50, 5⟩ := by
  have hlt : ¬ rowScore (⟨some "A", some "T2", some "K2", 8, some 50, 4⟩ : TaskRec) >
      rowScore (⟨some "A", some "T1", some "K1", 10, some 50, 5⟩ : TaskRec) := by
    have e1 : rowScore (⟨some "A", some "T1", some "K1", 10, some 50, 5⟩ : TaskRec) =
        (5 : ℚ) * ((50 : ℤ) : ℚ) / 100 := rfl
    have e2 : rowScore (⟨some "A", some "T2", some "K2", 8, some 50, 4⟩ : TaskRec) =
        (4 : ℚ) * ((50 : ℤ) : ℚ) / 100 := rfl
    rw [e1, e2]
    norm_num
  simp only [argmaxFirst]
  rw [if_neg hlt]

theorem c3cex_appTop_A :
    appTopTaskFor c3CexTable (some "A") =
      ⟨some "A", some "T1", some "K1", 10, some 50, 5,
        (5 : ℚ) * ((50 : ℤ) : ℚ) / 100, true⟩ := by
  unfold appTopTaskFor
  dsimp only
  have hfil : (c3CexTable.filter (fun r => decide (r.person = some "A"))).filter
      (fun r => decide (0 < r.creative_hours)) =
      [⟨some "A", some "T1", some "K1", 10, some 50, 5⟩,
       ⟨some "A", some "T2", some "K2", 8, some 50, 4⟩] := rfl
  rw [hfil, c3cex_argmax_A]
  rfl

theorem c3cex_appTop_B :
    appTopTaskFor c3CexTable (some "B") =
      ⟨some "B", some "T3", some "K3", 10, some 60, 6,
        (6 : ℚ) * ((60 : ℤ) : ℚ) / 100, true⟩ := rfl

theorem c3cex_app_order :
    app_top_tasks c3CexTable =
      [⟨some "B", some "T3", some "K3", 10, some 60, 6,
          (6 : ℚ) * ((60 : ℤ) : ℚ) / 100, true⟩,
       ⟨some "A", some "T1", some "K1", 10, some 50, 5,
          (5 : ℚ) * ((50 : ℤ) : ℚ) / 100, true⟩] := by
  unfold app_top_tasks
  have hpers : List.insertionSort persLE (uniqFirst (c3CexTable.map (·.person))) =
      [some "A", some "B"] := by decide
  rw [hpers]
  show List.insertionSort appScoreGE
      [appTopTaskFor c3CexTable (some "A"), appTopTaskFor c3CexTable (some "B")] = _
  rw [c3cex_appTop_A, c3cex_appTop_B]
  have hns : ¬ appScoreGE
      ⟨some "A", some "T1", some "K1", 10, some 50, 5,
        (5 : ℚ) * ((50 : ℤ) : ℚ) / 100, true⟩
      ⟨some "B", some "T3", some "K3", 10, some 60, 6,
        (6 : ℚ) * ((60 : ℤ) : ℚ) / 100, true⟩ := by
    unfold appScoreGE
    norm_num
  simp only [List.insertionSort, List.orderedInsert]
  rw [if_neg hns]

/-- C3 (counterexample): the leaderboard the claim cites at app.py lines
422-469 does NOT rank by the per-person total score.  On `c3CexTable`,
person A's total score (4.5) strictly exceeds person B's (3.6), yet the
rendered table sorts by the single top-task `score` column (app.py lines
467-469) and lists B first — so its rows are not sorted descending by
total score. -/
theorem c3_app_leaderboard_counterexample :
    person_total_score c3CexTable (some "B") <
      person_total_score c3CexTable (some "A") ∧
    (app_top_tasks c3CexTable).map (·.person) = [some "B", some "A"] ∧
    (app_top_tasks c3CexTable).map (·.score) = [18/5, 5/2] := by
  refine ⟨?_, ?_, ?_⟩
  · have eB : person_total_score c3CexTable (some "B") =
        (6 : ℚ) * ((60 : ℤ) : ℚ) / 100 + 0 := rfl
    have eA : person_total_score c3CexTable (some "A") =
        (5 : ℚ) * ((50 : ℤ) : ℚ) / 100 + ((4 : ℚ) * ((50 : ℤ) : ℚ) / 100 + 0) := rfl
    rw [eA, eB]
    norm_num
  · rw [c3cex_app_order]
    rfl
  · rw [c3cex_app_order]
    simp only [List.map_cons, List.map_nil, List.cons.injEq, and_true]
    constructor
    · norm_num
    · norm_num

/-- C3 (amended): `helpers.get_top_task_per_person` — the function whose
docstring announces the Top-Performer-consistent ordering — does rank by
the per-person total score: each output row's `total_score` is the sum of
`creative_hours * creative_percent / 100` over every one of that person's
rows with a non-null `creative_percent` (not only the top task), and the
output is sorted descending by `total_score` and is a permutation of the
one-row-per-person table `topTableUnsorted`.  No tie order is asserted:
pandas' default `sort_values` kind guarantees none, and the app.py
leaderboard of the counterexample ranks by top-task score instead. -/
theorem c3_ranking_by_total_score (rs : List TaskRec) :
    (∀ t ∈ get_top_task_per_person rs,
      t.total_score = ((rs.filter (fun r => decide (r.person = t.person) &&
        r.creative_percent.isSome)).map rowScore).sum) ∧
    List.Pairwise (fun a b : TopRec => b.total_score ≤ a.total_score)
      (get_top_task_per_person rs) ∧
    (get_top_task_per_person rs).Perm (topTableUnsorted rs) := by
  refine ⟨?_, ?_, ?_⟩
  · intro t ht
    obtain ⟨-, hteq⟩ := mem_get_top rs ht
    calc t.total_score = (topTaskFor rs t.person).total_score := by rw [← hteq]
    _ = person_total_score rs t.person := topTaskFor_total rs t.person
    _ = _ := rfl
  · exact List.sorted_insertionSort scoreGE (topTableUnsorted rs)
  · exact List.perm_insertionSort scoreGE (topTableUnsorted rs)

/-- The two-person creative-data-free table used to witness C3. -/
def c3Table : List TaskRec :=
  [⟨some "B", some "T1", some "K1", 5, none, 0⟩,
   ⟨some "A", some "T2", some "K2", 7, none, 0⟩]

/-- C3 witness: on `c3Table` the row of person A is in the leaderboard, its
total score is the (empty) sum over A's creative rows, the output is
sorted by total score, and it is a permutation of the per-person table. -/
theorem c3_ranking_by_total_score_witness :
    (⟨some "A", some "T2", some "K2", 7, none, 0, 0, 0, false⟩ : TopRec) ∈
      get_top_task_per_person c3Table ∧
    (⟨some "A", some "T2", some "K2", 7, none, 0, 0, 0, false⟩ : TopRec).total_score =
      ((c3Table.filter (fun r => decide (r.person =
        (⟨some "A", some "T2", some "K2", 7, none, 0, 0, 0, false⟩ : TopRec).person) &&
        r.creative_percent.isSome)).map rowScore).sum ∧
    List.Pairwise (fun a b : TopRec => b.total_score ≤ a.total_score)
      (get_top_task_per_person c3Table) ∧
    (get_top_task_per_person c3Table).Perm (topTableUnsorted c3Table) :=
  ⟨by decide,
   (c3_ranking_by_total_score c3Table).1 _ (by decide),
   (c3_ranking_by_total_score c3Table).2.1,
   (c3_ranking_by_total_score c3Table).2.2⟩

/-- The fallback branch of `topTaskFor` under "no creative rows". -/
theorem topTaskFor_no_creative (rs : List TaskRec) (p : Option String)
    (hp : ∃ r ∈ rs, r.person = p)
    (hnone : ∀ r ∈ rs, r.person = p → ¬ 0 < r.creative_hours) :
    (topTaskFor rs p).has_creative_data = false ∧ (topTaskFor rs p).score = 0 ∧
    (∀ r ∈ rs, r.person = p → r.time_hours ≤ (topTaskFor rs p).time_hours) ∧
    (∃ r ∈ rs, r.person = p ∧ r.time_hours = (topTaskFor rs p).time_hours) := by
  have hcd : (rs.filter (fun r => decide (r.person = p))).filter
      (fun r => decide (0 < r.creative_hours)) = [] := by
    rw [List.filter_eq_nil_iff]
    intro r hr
    have h1 := List.mem_filter.mp hr
    simpa using hnone r h1.1 (of_decide_eq_true h1.2)
  have hpd : rs.filter (fun r => decide (r.person = p)) ≠ [] := by
    obtain ⟨r, hr, hrp⟩ := hp
    exact List.ne_nil_of_mem (List.mem_filter.mpr ⟨hr, decide_eq_true hrp⟩)
  obtain ⟨best, hbest⟩ :=
    argmaxFirst_of_ne_nil (f := fun r : TaskRec => r.time_hours) hpd
  have hbm := List.mem_filter.mp (argmaxFirst_mem hbest)
  have hres : topTaskFor rs p =
      { person := best.person, task := best.task, key := best.key
      , time_hours := best.time_hours, creative_percent := best.creative_percent
      , creative_hours := best.creative_hours, score := 0
      , total_score := person_total_score rs p, has_creative_data := false } := by
    unfold topTaskFor
    dsimp only
    rw [hcd]
    show (match argmaxFirst (fun x => x.time_hours)
        (rs.filter (fun r => decide (r.person = p))) with
      | some best => _ | none => _) = _
    rw [hbest]
  rw [hres]
  refine ⟨rfl, rfl, ?_, ?_⟩
  · intro r hr hrp
    exact argmaxFirst_le hbest r (List.mem_filter.mpr ⟨hr, decide_eq_true hrp⟩)
  · exact ⟨best, hbm.1, of_decide_eq_true hbm.2, rfl⟩

/-- The creative branch of `topTaskFor` under "some creative row". -/
theorem topTaskFor_creative (rs : List TaskRec) (p : Option String)
    (hsome : ∃ r ∈ rs, r.person = p ∧ 0 < r.creative_hours) :
    (topTaskFor rs p).has_creative_data = true ∧
    (∀ r ∈ rs, r.person = p → 0 < r.creative_hours →
      rowScore r ≤ (topTaskFor rs p).score) ∧
    (∃ r ∈ rs, r.person = p ∧ 0 < r.creative_hours ∧
      rowScore r = (topTaskFor rs p).score) := by
  have hcd : (rs.filter (fun r => decide (r.person = p))).filter
      (fun r => decide (0 < r.creative_hours)) ≠ [] := by
    obtain ⟨r, hr, hrp, hrc⟩ := hsome
    exact List.ne_nil_of_mem (List.mem_filter.mpr
      ⟨List.mem_filter.mpr ⟨hr, decide_eq_true hrp⟩, decide_eq_true hrc⟩)
  obtain ⟨best, hbest⟩ := argmaxFirst_of_ne_nil (f := rowScore) hcd
  have hbm := List.mem_filter.mp (argmaxFirst_mem hbest)
  have hbm1 := List.mem_filter.mp hbm.1
  have hres : topTaskFor rs p =
      { person := best.person, task := best.task, key := best.key
      , time_hours := best.time_hours, creative_percent := best.creative_percent
      , creative_hours := best.creative_hours, score := rowScore best
      , total_score := person_total_score rs p, has_creative_data := true } := by
    unfold topTaskFor
    dsimp only
    show (match argmaxFirst rowScore ((rs.filter (fun r => decide (r.person = p))).filter
        (fun r => decide (0 < r.creative_hours))) with
      | some best => _ | none => _) = _
    rw [hbest]
  rw [hres]
  refine ⟨rfl, ?_, ?_⟩
  · intro r hr hrp hrc
    exact argmaxFirst_le hbest r (List.mem_filter.mpr
      ⟨List.mem_filter.mpr ⟨hr, decide_eq_true hrp⟩, decide_eq_true hrc⟩)
  · exact ⟨best, hbm1.1, of_decide_eq_true hbm1.2, of_decide_eq_true hbm.2, rfl⟩

/-- C7 (amended): the leaderboard has exactly one row per distinct person of
the table.  For a person all of whose rows have `creative_hours ≤ 0` — in
particular a person all of whose rows lack a creative percentage — that row
is the person's longest task by `time_hours`, with `score = 0` and
`has_creative_data = false`.  For a person with at least one row with
`creative_hours > 0` (the filter the source actually applies — NOT "at
least one non-null percent", see the counterexample) the row is the
highest-`rowScore` such task, with `has_creative_data = true`. -/
theorem c7_top_task_fallback (rs : List TaskRec) (p : Option String)
    (hp : p ∈ rs.map (·.person)) :
    ((get_top_task_per_person rs).map (·.person)).countP (fun x => decide (x = p)) = 1 ∧
    (∀ t ∈ get_top_task_per_person rs, t.person = p →
      ((∀ r ∈ rs, r.person = p → ¬ 0 < r.creative_hours) →
        t.has_creative_data = false ∧ t.score = 0 ∧
        (∀ r ∈ rs, r.person = p → r.time_hours ≤ t.time_hours) ∧
        (∃ r ∈ rs, r.person = p ∧ r.time_hours = t.time_hours)) ∧
      ((∃ r ∈ rs, r.person = p ∧ 0 < r.creative_hours) →
        t.has_creative_data = true ∧
        (∀ r ∈ rs, r.person = p → 0 < r.creative_hours → rowScore r ≤ t.score) ∧
        (∃ r ∈ rs, r.person = p ∧ 0 < r.creative_hours ∧ rowScore r = t.score))) := by
  constructor
  · have hmap : List.Perm ((get_top_task_per_person rs).map (·.person))
        ((topTableUnsorted rs).map (·.person)) :=
      (List.perm_insertionSort scoreGE (topTableUnsorted rs)).map _
    rw [hmap.countP_eq]
    have heq : (topTableUnsorted rs).map (·.person) =
        List.insertionSort persLE (uniqFirst (rs.map (·.person))) := by
      unfold topTableUnsorted
      rw [List.map_map]
      have h1 : List.map ((fun t : TopRec => t.person) ∘ topTaskFor rs)
          (List.insertionSort persLE (uniqFirst (rs.map (·.person)))) =
          List.map (fun x => x)
            (List.insertionSort persLE (uniqFirst (rs.map (·.person)))) :=
        List.map_congr_left (fun x _ => topTaskFor_person rs x)
      rw [h1]
      simp
    rw [heq,
      (List.perm_insertionSort persLE (uniqFirst (rs.map (·.person)))).countP_eq]
    exact countP_eq_one_of_nodup_mem (nodup_uniqFirst _) (mem_uniqFirst.mpr hp)
  · intro t ht htp
    obtain ⟨hmem, hteq⟩ := mem_get_top rs ht
    rw [htp] at hteq
    constructor
    · intro hnone
      have hex : ∃ r ∈ rs, r.person = p := by
        obtain ⟨r, hr, hrp⟩ := List.mem_map.mp hp
        exact ⟨r, hr, hrp⟩
      have h := topTaskFor_no_creative rs p hex hnone
      rw [← hteq] at h
      exact h
    · intro hsome
      have h := topTaskFor_creative rs p hsome
      rw [← hteq] at h
      exact h

/-- The one-person two-task creative-data-free table used to witness C7. -/
def c7Table : List TaskRec :=
  [⟨some "B", some "T1", some "K1", 3, none, 0⟩,
   ⟨some "B", some "T2", some "K2", 7, none, 0⟩]

/-- C7 witness: on `c7Table`, person B has exactly one leaderboard row, and
— having no row with positive creative hours — that row is B's longest task
(7h), with zero score and `has_creative_data = false`. -/
theorem c7_top_task_fallback_witness :
    ((get_top_task_per_person c7Table).map (·.person)).countP
      (fun x => decide (x = some "B")) = 1 ∧
    (⟨some "B", some "T2", some "K2", 7, none, 0, 0, 0, false⟩ : TopRec) ∈
      get_top_task_per_person c7Table ∧
    (⟨some "B", some "T2", some "K2", 7, none, 0, 0, 0, false⟩ : TopRec).has_creative_data
      = false ∧
    (⟨some "B", some "T2", some "K2", 7, none, 0, 0, 0, false⟩ : TopRec).score = 0 ∧
    (∀ r ∈ c7Table, r.person = some "B" →
      r.time_hours ≤ (⟨some "B", some "T2", some "K2", 7, none, 0, 0, 0, false⟩ :
        TopRec).time_hours) ∧
    (∃ r ∈ c7Table, r.person = some "B" ∧
      r.time_hours = (⟨some "B", some "T2", some "K2", 7, none, 0, 0, 0, false⟩ :
        TopRec).time_hours) := by
  have h := (c7_top_task_fallback c7Table (some "B") (by decide)).2
    ⟨some "B", some "T2", some "K2", 7, none, 0, 0, 0, false⟩ (by decide) rfl
  have h1 := h.1 (by decide)
  exact ⟨(c7_top_task_fallback c7Table (some "B") (by decide)).1,
    by decide, h1.1, h1.2.1, h1.2.2.1, h1.2.2.2⟩

/-- C7 (counterexample): in `zeroPercentTable` Bob's only task has a
recorded creative percent (0) — creative data is present — yet the top-task
selection returns `has_creative_data = false` with score 0, because the
source filters on `creative_hours > 0`, not on a non-null percent. -/
theorem c7_zero_percent_counterexample :
    zeroPercentTable.countP (fun r => r.creative_percent.isSome) = 1 ∧
    (get_top_task_per_person zeroPercentTable).map (·.has_creative_data) = [false] ∧
    (get_top_task_per_person zeroPercentTable).map (·.score) = [0] := by
  refine ⟨by decide, by decide, by decide⟩

end WorkReport
